import Mathlib

/-!
Shallow embedding of the argument-parsing engine of `cmd.h`
(`cmd_find_short_opt`, `cmd_find_long_opt`, `cmd_is_valid_int`,
`cmd_parse_options`) together with the demo schema of `main.c`.

C strings are modelled as Lean `String`s (the characters up to the NUL
terminator).  The in-place mutation of the option array is modelled by
threading a `List CMD_Opt`; the in-place mutation of the argument vector
(the temporary `*eq_pos = '\0'` truncation in the long-option branch) is
modelled by returning the final state of the token list alongside the
parse output.
-/

/-- Option value kinds, from the `CMD_OptType` enum of cmd.h. -/
inductive CMD_OptType
  | CMD_OPT_FLAG
  | CMD_OPT_STR
  | CMD_OPT_INT
deriving DecidableEq, Inhabited

/-- Option declaration, from the `CMD_Opt` struct of cmd.h.  The C `int`
field `is_provided` is only ever assigned 0 or 1, so it is a `Bool`; the
nullable C pointers `lname`, `help`, `str_val` are `Option String`. -/
structure CMD_Opt where
  sname : Char
  lname : Option String
  type : CMD_OptType
  help : Option String
  is_provided : Bool
  int_val : Int
  str_val : Option String
deriving DecidableEq, Inhabited

/-- Result codes, from the `CMD_ParseResult` enum of cmd.h. -/
inductive CMD_ParseResult
  | CMD_PARSE_OK
  | CMD_PARSE_UNKNOWN_OPT
  | CMD_PARSE_MISSING_VAL
  | CMD_PARSE_INVALID_VAL
deriving DecidableEq, Inhabited

/-- Capacity bound `CMD_MAX_POSITIONALS` of cmd.h. -/
def CMD_MAX_POSITIONALS : Nat := 64

/-- Parse output, from the `CMD_ParseOut` struct of cmd.h: the fixed
array plus `positionalc` counter is modelled as the list of the first
`positionalc` entries of the array. -/
structure CMD_ParseOut where
  res : CMD_ParseResult
  positionals : List String
deriving DecidableEq, Inhabited

/-- Translation of `cmd_find_short_opt`: index of the first option whose
short name equals `sname` (the C version returns a pointer into the
array; the index plays the role of the pointer). -/
def cmd_find_short_opt (sname : Char) (opts : List CMD_Opt) : Option Nat :=
  opts.findIdx? (fun o => o.sname == sname)

/-- Translation of `cmd_find_long_opt`: index of the first option whose
long name is non-null and string-equal to `lname`. -/
def cmd_find_long_opt (lname : String) (opts : List CMD_Opt) : Option Nat :=
  opts.findIdx? (fun o => o.lname == some lname)

/-- Digit-scanning loop of `cmd_is_valid_int`: the C `while (*p)` loop
that rejects any character outside ASCII `0`..`9`. -/
def cmd_digits_only : List Char → Bool
  | [] => true
  | c :: p => if c < '0' ∨ '9' < c then false else cmd_digits_only p

/-- Translation of `cmd_is_valid_int`: empty string rejected, an
optional single leading sign skipped, then every remaining character
must be an ASCII digit.  (Note: after a lone sign the remaining list is
empty and the scan succeeds, exactly as in the C code.) -/
def cmd_is_valid_int (str : String) : Bool :=
  match str.data with
  | [] => false
  | c :: p => cmd_digits_only (if c = '-' ∨ c = '+' then p else c :: p)

/-- Digit-accumulation loop of libc `atoi` (stops at the first
non-digit). -/
def cmd_atoi_digits : List Char → Int → Int
  | [], acc => acc
  | c :: p, acc =>
      if '0' ≤ c ∧ c ≤ '9' then
        cmd_atoi_digits p (10 * acc + ((c.toNat : Int) - ('0'.toNat : Int)))
      else acc

/-- Model of libc `atoi` as used by `cmd_parse_options`: optional sign
followed by a decimal digit run.  (The inputs it receives have already
passed `cmd_is_valid_int`, so the leading-whitespace handling of `atoi`
is irrelevant; C `int` overflow in `atoi` is undefined behaviour, so the
value is modelled with exact integer arithmetic.) -/
def cmd_atoi (s : String) : Int :=
  match s.data with
  | [] => 0
  | c :: p =>
      if c = '-' then - cmd_atoi_digits p 0
      else if c = '+' then cmd_atoi_digits p 0
      else cmd_atoi_digits (c :: p) 0

/-- Split a character list at the first `=`, modelling
`strchr(arg + 2, '=')` in the long-option branch: the first component is
the text before the `=` (the C string as read while the `=` is
overwritten with `'\0'`), the second is the text after it when an `=`
was found. -/
def cmd_split_eq : List Char → List Char × Option (List Char)
  | [] => ([], none)
  | c :: p =>
      if c = '=' then ([], some p)
      else
        let r := cmd_split_eq p
        (c :: r.1, r.2)

/-- Lines 188-204 of cmd.h (`if (opt) { opt->is_provided = 1; switch ... }`):
mark option `j` provided and store its value.  `is_provided` is set
before the integer validity check, exactly as in the C code, so on
`CMD_PARSE_INVALID_VAL` the option is already marked provided. -/
def cmd_assign (opts : List CMD_Opt) (j : Nat) (val : Option String) :
    CMD_ParseResult × List CMD_Opt :=
  let o := opts.getD j default
  let o1 := { o with is_provided := true }
  match o.type with
  | .CMD_OPT_FLAG => (.CMD_PARSE_OK, opts.set j o1)
  | .CMD_OPT_STR => (.CMD_PARSE_OK, opts.set j { o1 with str_val := val })
  | .CMD_OPT_INT =>
      match val with
      | none => (.CMD_PARSE_INVALID_VAL, opts.set j o1)
      | some v =>
          if cmd_is_valid_int v then
            (.CMD_PARSE_OK, opts.set j { o1 with int_val := cmd_atoi v })
          else (.CMD_PARSE_INVALID_VAL, opts.set j o1)

/-- Classification of one token by the loop body of
`cmd_parse_options`: either halt with an error (`halt` carries the final
state of the token list from the current token on: on the long-option
`UnknownOption` path the early return skips the `*eq_pos = '='`
restore, so there the token comes back truncated at the `=`; every
other path leaves the tokens intact), or resolve to an option index
plus captured value to be assigned (`consumed_next` records whether the
value was taken from the following token, advancing the loop index), or
classify the token as a positional. -/
inductive CMD_Step where
  | halt (res : CMD_ParseResult) (toks : List String)
  | assign (j : Nat) (val : Option String) (consumed_next : Bool)
  | positional
deriving DecidableEq, Inhabited

/-- Classification of one token, translated line by line from the loop
body of `cmd_parse_options` (long-option branch lines 133-156,
short-option branch lines 159-180, positional branch lines 183-186 of
cmd.h); the assignment block at the loop bottom (lines 188-204) is
performed by the driver `cmd_parse_loop` via `cmd_assign`.  No path
here mutates the option array: the error returns of the C code before
the assignment block leave `opts` untouched. -/
def cmd_parse_step (opts : List CMD_Opt) (arg : String) (rest : List String) :
    CMD_Step :=
  match arg.data with
  | '-' :: c2 :: tail2 =>
      if c2 = '-' then
        -- long option: split at the first '=', look up the prefix
        let se := cmd_split_eq tail2
        match cmd_find_long_opt (String.mk se.1) opts with
        | none =>
            .halt .CMD_PARSE_UNKNOWN_OPT
              ((if se.2.isSome then String.mk ('-' :: '-' :: se.1) else arg) :: rest)
        | some j =>
            if se.2.isNone ∧ (opts.getD j default).type ≠ .CMD_OPT_FLAG then
              -- no value found with '=': check the next argument
              match rest with
              | next :: _ =>
                  if next.data.head? ≠ some '-' then .assign j (some next) true
                  else .halt .CMD_PARSE_MISSING_VAL (arg :: rest)
              | [] => .halt .CMD_PARSE_MISSING_VAL (arg :: rest)
            else .assign j (se.2.map String.mk) false
      else
        -- short option: arg[0] = '-', arg[1] = c2 is not the terminator
        match cmd_find_short_opt c2 opts with
        | none => .halt .CMD_PARSE_UNKNOWN_OPT (arg :: rest)
        | some j =>
            if (opts.getD j default).type ≠ .CMD_OPT_FLAG then
              if tail2 ≠ [] then
                -- value attached: -svalue
                .assign j (some (String.mk tail2)) false
              else
                -- value in next argument: -s value
                match rest with
                | next :: _ =>
                    if next.data.head? ≠ some '-' then .assign j (some next) true
                    else .halt .CMD_PARSE_MISSING_VAL (arg :: rest)
                | [] => .halt .CMD_PARSE_MISSING_VAL (arg :: rest)
            else .assign j none false
  | _ => .positional

/-- The token loop of `cmd_parse_options` (lines 127-205 of cmd.h),
processing the tokens after the program and command names; one
`cmd_parse_step` classification plus, for resolved options, one
`cmd_assign` per iteration.  Returns the parse output, the final option
array, and the final state of the processed token list.
(`cmd_parse_step` only reports `consumed_next := true` when `rest` is
non-empty, so the `[]` sub-case of that branch is unreachable.) -/
def cmd_parse_loop (opts : List CMD_Opt) (out : CMD_ParseOut) :
    List String → CMD_ParseOut × List CMD_Opt × List String
  | [] => (out, opts, [])
  | arg :: rest =>
      match cmd_parse_step opts arg rest with
      | .halt res toks =>
          ({ res := res, positionals := out.positionals }, opts, toks)
      | .assign j val true =>
          match cmd_assign opts j val with
          | (.CMD_PARSE_OK, opts2) =>
              match rest with
              | next :: rest2 =>
                  let r := cmd_parse_loop opts2 out rest2
                  (r.1, r.2.1, arg :: next :: r.2.2)
              | [] =>
                  let r := cmd_parse_loop opts2 out []
                  (r.1, r.2.1, arg :: r.2.2)
          | (err, opts2) =>
              ({ res := err, positionals := out.positionals }, opts2, arg :: rest)
      | .assign j val false =>
          match cmd_assign opts j val with
          | (.CMD_PARSE_OK, opts2) =>
              let r := cmd_parse_loop opts2 out rest
              (r.1, r.2.1, arg :: r.2.2)
          | (err, opts2) =>
              ({ res := err, positionals := out.positionals }, opts2, arg :: rest)
      | .positional =>
          -- positional argument (or silently skipped when at capacity)
          if out.positionals.length < CMD_MAX_POSITIONALS then
            let r := cmd_parse_loop opts
              { out with positionals := out.positionals ++ [arg] } rest
            (r.1, r.2.1, arg :: r.2.2)
          else
            let r := cmd_parse_loop opts out rest
            (r.1, r.2.1, arg :: r.2.2)

/-- The per-call reset of one declaration (lines 120-124 of cmd.h). -/
def cmd_reset_opt (o : CMD_Opt) : CMD_Opt :=
  { o with is_provided := false, str_val := none, int_val := 0 }

/-- Translation of `cmd_parse_options`: reset every declaration, then
run the token loop starting at index 2 of the argument vector (skipping
the program name and the command name).  Returns the parse output, the
final option array, and the final state of the argument vector. -/
def cmd_parse_options (argv : List String) (opts : List CMD_Opt) :
    CMD_ParseOut × List CMD_Opt × List String :=
  let opts0 := opts.map cmd_reset_opt
  let r := cmd_parse_loop opts0
    { res := .CMD_PARSE_OK, positionals := [] } (argv.drop 2)
  (r.1, r.2.1, argv.take 2 ++ r.2.2)

/-- The option schema of the demo command `cmd_foo` in main.c. -/
def cmd_foo_opts : List CMD_Opt :=
  [ { sname := 'f', lname := some "flag", type := .CMD_OPT_FLAG,
      help := none, is_provided := false, int_val := 0, str_val := none },
    { sname := 's', lname := some "string", type := .CMD_OPT_STR,
      help := none, is_provided := false, int_val := 0, str_val := none },
    { sname := 'n', lname := some "number", type := .CMD_OPT_INT,
      help := none, is_provided := false, int_val := 0, str_val := none } ]

/-- A one-option schema with an integer option named `n` / `number`. -/
def cmd_number_opts : List CMD_Opt :=
  [ { sname := 'n', lname := some "number", type := .CMD_OPT_INT,
      help := none, is_provided := false, int_val := 0, str_val := none } ]

/-- The `cmd_number_opts` declaration after a successful parse that set
its integer value to `n`. -/
def cmd_number_opt_set (n : Int) : CMD_Opt :=
  { sname := 'n', lname := some "number", type := .CMD_OPT_INT,
    help := none, is_provided := true, int_val := n, str_val := none }

/-- Tokens the loop classifies as positional (rules 1-2 of spec section
4.1 both fail): the first character is not `-`, or the token is the
bare dash `-` (first character `-` but nothing after it). -/
def cmd_positional_shape (t : String) : Prop :=
  t.data.head? ≠ some '-' ∨ t = "-"

/-- C1 counterexample: parsing the token `-n=42` against the
`n`/`number` integer schema does NOT succeed with value 42 as the claim
states: the short-option branch takes everything after `-n` as the
attached value, so the captured value is `=42`, which fails integer
validation and the parse returns `CMD_PARSE_INVALID_VAL`. -/
theorem cmd_c1_counterexample :
    (cmd_parse_options ["prog", "cmd", "-n=42"] cmd_number_opts).1.res =
        CMD_ParseResult.CMD_PARSE_INVALID_VAL ∧
      (cmd_parse_options ["prog", "cmd", "-n=42"] cmd_number_opts).1.res ≠
        CMD_ParseResult.CMD_PARSE_OK := by
  decide

/-- C1 (amended): parsing `-n 42`, `--number=42` and `--number 42`
against the `n`/`number` integer schema succeeds with the option
provided and integer value 42; parsing `-n=42` instead captures `=42`
as the attached value and fails with `CMD_PARSE_INVALID_VAL` (the
option is still marked provided, its integer value left at 0). -/
theorem cmd_c1_amended :
    cmd_parse_options ["prog", "cmd", "-n", "42"] cmd_number_opts =
        ({ res := .CMD_PARSE_OK, positionals := [] }, [cmd_number_opt_set 42],
          ["prog", "cmd", "-n", "42"]) ∧
      cmd_parse_options ["prog", "cmd", "--number=42"] cmd_number_opts =
        ({ res := .CMD_PARSE_OK, positionals := [] }, [cmd_number_opt_set 42],
          ["prog", "cmd", "--number=42"]) ∧
      cmd_parse_options ["prog", "cmd", "--number", "42"] cmd_number_opts =
        ({ res := .CMD_PARSE_OK, positionals := [] }, [cmd_number_opt_set 42],
          ["prog", "cmd", "--number", "42"]) ∧
      cmd_parse_options ["prog", "cmd", "-n=42"] cmd_number_opts =
        ({ res := .CMD_PARSE_INVALID_VAL, positionals := [] },
          [cmd_number_opt_set 0], ["prog", "cmd", "-n=42"]) := by
  decide

/-- C2 counterexample: with a schema of zero declarations, the token
`--foo` is NOT appended to the positionals with a success outcome as
the claim states: it enters the long-option branch, the lookup fails,
and the parse returns `CMD_PARSE_UNKNOWN_OPT` with no positionals. -/
theorem cmd_c2_counterexample :
    (cmd_parse_options ["prog", "cmd", "--foo"] ([] : List CMD_Opt)).1 =
        { res := .CMD_PARSE_UNKNOWN_OPT, positionals := [] } ∧
      (cmd_parse_options ["prog", "cmd", "--foo"] ([] : List CMD_Opt)).1.res ≠
        CMD_ParseResult.CMD_PARSE_OK := by
  decide

/-- C3: the code contradicts the claim's integer-syntax rule at a bare
sign.  `cmd_is_valid_int` skips one leading sign and then accepts when
no characters remain, so the captured values `+` and `-` are accepted
(claim: one or more digits required, bare signs fail with
`InvalidValue`); parsing `--number=+` therefore succeeds with the
option provided and `atoi`-converted value 0. -/
theorem cmd_c3_bug :
    cmd_is_valid_int "+" = true ∧
      cmd_is_valid_int "-" = true ∧
      cmd_is_valid_int "" = false ∧
      cmd_parse_options ["prog", "cmd", "--number=+"] cmd_number_opts =
        ({ res := .CMD_PARSE_OK, positionals := [] }, [cmd_number_opt_set 0],
          ["prog", "cmd", "--number=+"]) := by
  decide

/-- C4: the code contradicts the claim's no-mutation rule.  On the
`UnknownOption` path of the long-option branch the early return skips
the `*eq_pos = '='` restore, so parsing `--bogus=7` against the demo
schema returns `CMD_PARSE_UNKNOWN_OPT` with the third argument string
permanently truncated at the `=` (the token `--bogus=7` comes back as
`--bogus`, not character-for-character unchanged). -/
theorem cmd_c4_bug :
    (cmd_parse_options ["prog", "foo", "--bogus=7"] cmd_foo_opts).1.res =
        CMD_ParseResult.CMD_PARSE_UNKNOWN_OPT ∧
      (cmd_parse_options ["prog", "foo", "--bogus=7"] cmd_foo_opts).2.2 =
        ["prog", "foo", "--bogus"] ∧
      (cmd_parse_options ["prog", "foo", "--bogus=7"] cmd_foo_opts).2.2 ≠
        ["prog", "foo", "--bogus=7"] := by
  decide

/-- C5: the end-to-end example.  Parsing
`-f --string=hello -n 7 pos1 pos2` against the demo schema of main.c
succeeds with the flag provided, the string option's value `hello`, the
integer option's value 7, and positionals `[pos1, pos2]`. -/
theorem cmd_c5_end_to_end :
    cmd_parse_options ["prog", "foo", "-f", "--string=hello", "-n", "7", "pos1", "pos2"]
        cmd_foo_opts =
      ({ res := .CMD_PARSE_OK, positionals := ["pos1", "pos2"] },
        [ { sname := 'f', lname := some "flag", type := .CMD_OPT_FLAG,
            help := none, is_provided := true, int_val := 0, str_val := none },
          { sname := 's', lname := some "string", type := .CMD_OPT_STR,
            help := none, is_provided := true, int_val := 0, str_val := some "hello" },
          { sname := 'n', lname := some "number", type := .CMD_OPT_INT,
            help := none, is_provided := true, int_val := 7, str_val := none } ],
        ["prog", "foo", "-f", "--string=hello", "-n", "7", "pos1", "pos2"]) := by
  decide

/-- A token of positional shape never matches the long-option or
short-option patterns of the loop body: `cmd_parse_step` classifies it
as `positional`. -/
theorem cmd_parse_step_positional (opts : List CMD_Opt) (t : String)
    (rest : List String) (ht : cmd_positional_shape t) :
    cmd_parse_step opts t rest = .positional := by
  rw [cmd_parse_step]
  split
  · rename_i c2 tail2 hdata
    exfalso
    rcases ht with h | h
    · exact h (by rw [hdata]; rfl)
    · have hlen : ("-".data).length = 1 := rfl
      rw [h] at hdata
      rw [hdata] at hlen
      simp at hlen
  · rfl

/-- Unfolding of one loop iteration on a positional-shaped token: it is
appended when below the capacity bound and silently skipped otherwise,
and the loop continues on the remaining tokens either way. -/
theorem cmd_parse_loop_positional_step (opts : List CMD_Opt) (out : CMD_ParseOut)
    (t : String) (rest : List String) (ht : cmd_positional_shape t) :
    cmd_parse_loop opts out (t :: rest) =
      if out.positionals.length < CMD_MAX_POSITIONALS then
        ((cmd_parse_loop opts { out with positionals := out.positionals ++ [t] } rest).1,
         (cmd_parse_loop opts { out with positionals := out.positionals ++ [t] } rest).2.1,
         t :: (cmd_parse_loop opts { out with positionals := out.positionals ++ [t] } rest).2.2)
      else
        ((cmd_parse_loop opts out rest).1,
         (cmd_parse_loop opts out rest).2.1,
         t :: (cmd_parse_loop opts out rest).2.2) := by
  rw [cmd_parse_loop, cmd_parse_step_positional opts t rest ht]

/-- On a token list of positional-shaped tokens the loop collects the
tokens in order up to the capacity bound, never errors, and leaves the
option array and the token list untouched. -/
theorem cmd_parse_loop_all_positionals (toks : List String) :
    ∀ (opts : List CMD_Opt) (r : CMD_ParseResult) (acc : List String),
      (∀ t ∈ toks, cmd_positional_shape t) →
      cmd_parse_loop opts { res := r, positionals := acc } toks =
        ({ res := r, positionals := acc ++ toks.take (CMD_MAX_POSITIONALS - acc.length) },
          opts, toks) := by
  induction toks with
  | nil => intro opts r acc _; simp [cmd_parse_loop]
  | cons t rest ih =>
      intro opts r acc hsh
      rw [cmd_parse_loop_positional_step opts _ t rest (hsh t (by simp))]
      by_cases hlt : acc.length < CMD_MAX_POSITIONALS
      · rw [if_pos hlt]
        rw [ih opts r (acc ++ [t]) (fun u hu => hsh u (by simp [hu]))]
        have h64 : CMD_MAX_POSITIONALS - acc.length =
            (CMD_MAX_POSITIONALS - (acc ++ [t]).length) + 1 := by
          simp only [List.length_append, List.length_cons, List.length_nil]
          omega
        rw [h64, List.take_succ_cons]
        simp
      · rw [if_neg hlt]
        rw [ih opts r acc (fun u hu => hsh u (by simp [hu]))]
        have h0 : CMD_MAX_POSITIONALS - acc.length = 0 := by omega
        simp [h0]

/-- C2 (amended): for the schema with zero declarations and any token
sequence in which every token is of positional shape (does not begin
with `-`, the bare dash allowed), parse appends every token, up to the
first `CMD_MAX_POSITIONALS` = 64 of them, to the positional sequence in
encounter order and returns success.  (Tokens beginning with `-` are
excluded: they go through option lookup even against an empty schema
and fail with `UnknownOption`, see the counterexample.) -/
theorem cmd_c2_amended (a0 a1 : String) (toks : List String)
    (h : ∀ t ∈ toks, cmd_positional_shape t) :
    cmd_parse_options (a0 :: a1 :: toks) [] =
      ({ res := .CMD_PARSE_OK, positionals := toks.take CMD_MAX_POSITIONALS },
        [], a0 :: a1 :: toks) := by
  simp only [cmd_parse_options, List.map_nil, List.drop_succ_cons, List.drop_zero,
    List.take_succ_cons, List.take_zero]
  rw [cmd_parse_loop_all_positionals toks [] .CMD_PARSE_OK [] h]
  simp

/-- C2 witness: 65 plain tokens against the empty schema give success
with the first 64 of them as positionals, in order. -/
theorem cmd_c2_witness :
    cmd_parse_options ("prog" :: "cmd" :: List.replicate 65 "x") [] =
      ({ res := .CMD_PARSE_OK, positionals := List.replicate 64 "x" },
        [], "prog" :: "cmd" :: List.replicate 65 "x") := by
  have h := cmd_c2_amended "prog" "cmd" (List.replicate 65 "x")
    (fun t ht => by rw [List.eq_of_mem_replicate ht]; exact Or.inl (by decide))
  rw [h]
  simp [List.take_replicate, CMD_MAX_POSITIONALS]

/-- C9: positional storage is bounded by `CMD_MAX_POSITIONALS` = 64.
For every schema and every token sequence of positional-shaped tokens,
parse keeps the first 64 positionals in encounter order, silently stops
collecting beyond the bound, and still returns success. -/
theorem cmd_c9_bounded (a0 a1 : String) (toks : List String) (opts : List CMD_Opt)
    (h : ∀ t ∈ toks, cmd_positional_shape t) :
    (cmd_parse_options (a0 :: a1 :: toks) opts).1 =
      { res := .CMD_PARSE_OK, positionals := toks.take CMD_MAX_POSITIONALS } := by
  simp only [cmd_parse_options, List.drop_succ_cons, List.drop_zero]
  rw [cmd_parse_loop_all_positionals toks (opts.map cmd_reset_opt) .CMD_PARSE_OK [] h]
  simp

/-- C9 witness: 65 positional tokens against the demo schema give
success with exactly the first 64 collected. -/
theorem cmd_c9_witness :
    (cmd_parse_options ("prog" :: "foo" :: List.replicate 65 "y") cmd_foo_opts).1 =
      { res := .CMD_PARSE_OK, positionals := List.replicate 64 "y" } := by
  have h := cmd_c9_bounded "prog" "foo" (List.replicate 65 "y") cmd_foo_opts
    (fun t ht => by rw [List.eq_of_mem_replicate ht]; exact Or.inl (by decide))
  rw [h]
  simp [List.take_replicate, CMD_MAX_POSITIONALS]

/-- C8: a bare dash token `-` is not treated as an option: in any loop
state below the positional capacity it is appended to the positional
sequence in encounter order, no error is produced by it, and the loop
continues on the remaining tokens with the option array untouched. -/
theorem cmd_c8_bare_dash (opts : List CMD_Opt) (out : CMD_ParseOut)
    (rest : List String) (hcap : out.positionals.length < CMD_MAX_POSITIONALS) :
    cmd_parse_loop opts out ("-" :: rest) =
      ((cmd_parse_loop opts { out with positionals := out.positionals ++ ["-"] } rest).1,
       (cmd_parse_loop opts { out with positionals := out.positionals ++ ["-"] } rest).2.1,
       "-" :: (cmd_parse_loop opts { out with positionals := out.positionals ++ ["-"] } rest).2.2) := by
  rw [cmd_parse_loop_positional_step opts out "-" rest (Or.inr rfl), if_pos hcap]

/-- C8 witness: the single token `-` against the demo schema ends as the
sole positional with a success outcome. -/
theorem cmd_c8_witness :
    cmd_parse_loop cmd_foo_opts { res := .CMD_PARSE_OK, positionals := [] } ["-"] =
      ({ res := .CMD_PARSE_OK, positionals := ["-"] }, cmd_foo_opts, ["-"]) := by
  have h := cmd_c8_bare_dash cmd_foo_opts { res := .CMD_PARSE_OK, positionals := [] }
    [] (by decide)
  rw [h]
  decide

/-- Splitting at the first `=` of a character list that contains no `=`
returns the whole list with no attached value. -/
theorem cmd_split_eq_no_eq (l : List Char) (h : '=' ∉ l) :
    cmd_split_eq l = (l, none) := by
  induction l with
  | nil => rfl
  | cons c p ih =>
      have hc : c ≠ '=' := fun hcc => h (hcc ▸ List.mem_cons_self c p)
      have hp : '=' ∉ p := fun hm => h (List.mem_cons_of_mem c hm)
      simp [cmd_split_eq, hc, ih hp]

/-- Classification of a short flag token with arbitrary trailing
characters: the flag is resolved with no value and the next token is
not consumed. -/
theorem cmd_step_short_flag (opts : List CMD_Opt) (c : Char) (tail2 : List Char)
    (rest : List String) (j : Nat) (hc : c ≠ '-')
    (hfind : cmd_find_short_opt c opts = some j)
    (htype : (opts.getD j default).type = .CMD_OPT_FLAG) :
    cmd_parse_step opts (String.mk ('-' :: c :: tail2)) rest =
      .assign j none false := by
  simp only [List.getD, List.get?_eq_getElem?] at htype
  simp [cmd_parse_step, hc, hfind, htype]

/-- Classification of a short non-flag option token without attached
value and with a following token: the next token is consumed as the
value exactly when its first character is not `-`, otherwise the step
halts with `MissingValue`. -/
theorem cmd_step_short_noval (opts : List CMD_Opt) (c : Char) (j : Nat)
    (next : String) (rest : List String) (hc : c ≠ '-')
    (hfind : cmd_find_short_opt c opts = some j)
    (htype : (opts.getD j default).type ≠ .CMD_OPT_FLAG) :
    cmd_parse_step opts (String.mk ['-', c]) (next :: rest) =
      if next.data.head? = some '-' then
        .halt .CMD_PARSE_MISSING_VAL (String.mk ['-', c] :: next :: rest)
      else .assign j (some next) true := by
  simp only [List.getD, List.get?_eq_getElem?] at htype
  simp [cmd_parse_step, hc, hfind, htype]

/-- Classification of a short non-flag option token without attached
value at the end of the input: the step halts with `MissingValue`. -/
theorem cmd_step_short_noval_end (opts : List CMD_Opt) (c : Char) (j : Nat)
    (hc : c ≠ '-') (hfind : cmd_find_short_opt c opts = some j)
    (htype : (opts.getD j default).type ≠ .CMD_OPT_FLAG) :
    cmd_parse_step opts (String.mk ['-', c]) [] =
      .halt .CMD_PARSE_MISSING_VAL [String.mk ['-', c]] := by
  simp only [List.getD, List.get?_eq_getElem?] at htype
  simp [cmd_parse_step, hc, hfind, htype]

/-- Classification of a long non-flag option token without `=` and with
a following token: the next token is consumed as the value exactly when
its first character is not `-`, otherwise the step halts with
`MissingValue`. -/
theorem cmd_step_long_noval (opts : List CMD_Opt) (nm : List Char) (j : Nat)
    (next : String) (rest : List String) (hnm : '=' ∉ nm)
    (hfind : cmd_find_long_opt (String.mk nm) opts = some j)
    (htype : (opts.getD j default).type ≠ .CMD_OPT_FLAG) :
    cmd_parse_step opts (String.mk ('-' :: '-' :: nm)) (next :: rest) =
      if next.data.head? = some '-' then
        .halt .CMD_PARSE_MISSING_VAL (String.mk ('-' :: '-' :: nm) :: next :: rest)
      else .assign j (some next) true := by
  simp only [List.getD, List.get?_eq_getElem?] at htype
  simp [cmd_parse_step, cmd_split_eq_no_eq nm hnm, hfind, htype]

/-- Classification of a long non-flag option token without `=` at the
end of the input: the step halts with `MissingValue`. -/
theorem cmd_step_long_noval_end (opts : List CMD_Opt) (nm : List Char) (j : Nat)
    (hnm : '=' ∉ nm) (hfind : cmd_find_long_opt (String.mk nm) opts = some j)
    (htype : (opts.getD j default).type ≠ .CMD_OPT_FLAG) :
    cmd_parse_step opts (String.mk ('-' :: '-' :: nm)) [] =
      .halt .CMD_PARSE_MISSING_VAL [String.mk ('-' :: '-' :: nm)] := by
  simp only [List.getD, List.get?_eq_getElem?] at htype
  simp [cmd_parse_step, cmd_split_eq_no_eq nm hnm, hfind, htype]

/-- C6: for every non-flag option given without an attached value (in
both the short form `-x` and the long form `--name`), the next token is
consumed as the value if and only if it exists and its first character
is not `-`; a following token beginning with `-` is never consumed and
the parse fails with `MissingValue`, as does end of input. -/
theorem cmd_c6_lookahead (opts : List CMD_Opt) (out : CMD_ParseOut) (j : Nat)
    (htype : (opts.getD j default).type ≠ .CMD_OPT_FLAG) :
    (∀ (c : Char) (next : String) (rest : List String), c ≠ '-' →
       cmd_find_short_opt c opts = some j →
       ((next.data.head? = some '-' →
          cmd_parse_loop opts out (String.mk ['-', c] :: next :: rest) =
            ({ res := .CMD_PARSE_MISSING_VAL, positionals := out.positionals },
              opts, String.mk ['-', c] :: next :: rest)) ∧
        (next.data.head? ≠ some '-' →
          cmd_parse_loop opts out (String.mk ['-', c] :: next :: rest) =
            (match cmd_assign opts j (some next) with
             | (.CMD_PARSE_OK, opts2) =>
                 ((cmd_parse_loop opts2 out rest).1,
                  (cmd_parse_loop opts2 out rest).2.1,
                  String.mk ['-', c] :: next :: (cmd_parse_loop opts2 out rest).2.2)
             | (err, opts2) =>
                 ({ res := err, positionals := out.positionals },
                   opts2, String.mk ['-', c] :: next :: rest))) ∧
        cmd_parse_loop opts out [String.mk ['-', c]] =
          ({ res := .CMD_PARSE_MISSING_VAL, positionals := out.positionals },
            opts, [String.mk ['-', c]]))) ∧
    (∀ (nm : List Char) (next : String) (rest : List String), '=' ∉ nm →
       cmd_find_long_opt (String.mk nm) opts = some j →
       ((next.data.head? = some '-' →
          cmd_parse_loop opts out (String.mk ('-' :: '-' :: nm) :: next :: rest) =
            ({ res := .CMD_PARSE_MISSING_VAL, positionals := out.positionals },
              opts, String.mk ('-' :: '-' :: nm) :: next :: rest)) ∧
        (next.data.head? ≠ some '-' →
          cmd_parse_loop opts out (String.mk ('-' :: '-' :: nm) :: next :: rest) =
            (match cmd_assign opts j (some next) with
             | (.CMD_PARSE_OK, opts2) =>
                 ((cmd_parse_loop opts2 out rest).1,
                  (cmd_parse_loop opts2 out rest).2.1,
                  String.mk ('-' :: '-' :: nm) :: next ::
                    (cmd_parse_loop opts2 out rest).2.2)
             | (err, opts2) =>
                 ({ res := err, positionals := out.positionals },
                   opts2, String.mk ('-' :: '-' :: nm) :: next :: rest))) ∧
        cmd_parse_loop opts out [String.mk ('-' :: '-' :: nm)] =
          ({ res := .CMD_PARSE_MISSING_VAL, positionals := out.positionals },
            opts, [String.mk ('-' :: '-' :: nm)]))) := by
  constructor
  · intro c next rest hc hfind
    refine ⟨fun hdash => ?_, fun hdash => ?_, ?_⟩
    · rw [cmd_parse_loop, cmd_step_short_noval opts c j next rest hc hfind htype,
        if_pos hdash]
    · rw [cmd_parse_loop, cmd_step_short_noval opts c j next rest hc hfind htype,
        if_neg hdash]
    · rw [cmd_parse_loop, cmd_step_short_noval_end opts c j hc hfind htype]
  · intro nm next rest hnm hfind
    refine ⟨fun hdash => ?_, fun hdash => ?_, ?_⟩
    · rw [cmd_parse_loop, cmd_step_long_noval opts nm j next rest hnm hfind htype,
        if_pos hdash]
    · rw [cmd_parse_loop, cmd_step_long_noval opts nm j next rest hnm hfind htype,
        if_neg hdash]
    · rw [cmd_parse_loop, cmd_step_long_noval_end opts nm j hnm hfind htype]

/-- C6 witness: the integer option `-n` followed by the separate token
`-5` is not given `-5` as its value; the parse fails with
`MissingValue`. -/
theorem cmd_c6_witness :
    cmd_parse_loop cmd_number_opts { res := .CMD_PARSE_OK, positionals := [] }
        [String.mk ['-', 'n'], "-5"] =
      ({ res := .CMD_PARSE_MISSING_VAL, positionals := [] }, cmd_number_opts,
        [String.mk ['-', 'n'], "-5"]) := by
  have h := ((cmd_c6_lookahead cmd_number_opts
      { res := .CMD_PARSE_OK, positionals := [] } 0 (by decide)).1 'n' "-5" []
      (by decide) (by decide)).1 (by decide)
  simpa using h

/-- C10: a token `-x...` whose second character is the short name of a
declared flag is accepted regardless of trailing characters: the flag
(and no other option) is marked provided, the trailing characters are
ignored, the token itself never produces an error, and the loop
continues on the remaining tokens (no short-option bundling). -/
theorem cmd_c10_short_flag_trailing (opts : List CMD_Opt) (out : CMD_ParseOut)
    (c : Char) (tail2 : List Char) (rest : List String) (j : Nat) (hc : c ≠ '-')
    (hfind : cmd_find_short_opt c opts = some j)
    (htype : (opts.getD j default).type = .CMD_OPT_FLAG) :
    cmd_parse_loop opts out (String.mk ('-' :: c :: tail2) :: rest) =
      ((cmd_parse_loop (opts.set j { opts.getD j default with is_provided := true }) out rest).1,
       (cmd_parse_loop (opts.set j { opts.getD j default with is_provided := true }) out rest).2.1,
       String.mk ('-' :: c :: tail2) ::
         (cmd_parse_loop (opts.set j { opts.getD j default with is_provided := true }) out rest).2.2) := by
  rw [cmd_parse_loop, cmd_step_short_flag opts c tail2 rest j hc hfind htype]
  have hassign : cmd_assign opts j none =
      (.CMD_PARSE_OK, opts.set j { opts.getD j default with is_provided := true }) := by
    rw [cmd_assign.eq_def]
    simp only [htype]
  simp only [hassign]

/-- C10 witness: the token `-fxyz` against the demo schema marks the
flag `f` provided, sets nothing else, and succeeds. -/
theorem cmd_c10_witness :
    cmd_parse_loop cmd_foo_opts { res := .CMD_PARSE_OK, positionals := [] }
        [String.mk ['-', 'f', 'x', 'y', 'z']] =
      ({ res := .CMD_PARSE_OK, positionals := [] },
        [ { sname := 'f', lname := some "flag", type := .CMD_OPT_FLAG,
            help := none, is_provided := true, int_val := 0, str_val := none },
          { sname := 's', lname := some "string", type := .CMD_OPT_STR,
            help := none, is_provided := false, int_val := 0, str_val := none },
          { sname := 'n', lname := some "number", type := .CMD_OPT_INT,
            help := none, is_provided := false, int_val := 0, str_val := none } ],
        [String.mk ['-', 'f', 'x', 'y', 'z']]) := by
  have h := cmd_c10_short_flag_trailing cmd_foo_opts
    { res := .CMD_PARSE_OK, positionals := [] } 'f' ['x', 'y', 'z'] [] 0
    (by decide) (by decide) (by decide)
  rw [h]
  decide

/-- Reading an index of a reset option array equals resetting the
option read at that index. -/
theorem cmd_getD_map_reset (opts : List CMD_Opt) (j : Nat) :
    (opts.map cmd_reset_opt).getD j (cmd_reset_opt default) =
      cmd_reset_opt (opts.getD j default) := by
  induction opts generalizing j with
  | nil => simp
  | cons o l ih =>
      cases j with
      | zero => simp
      | succ k => simp [ih k]

/-- Writing back the element read at an index leaves a list unchanged
(also past the end, where both operations are inert). -/
theorem cmd_set_getD_self (l : List CMD_Opt) (j : Nat) (d : CMD_Opt) :
    l.set j (l.getD j d) = l := by
  induction l generalizing j with
  | nil => simp
  | cons o t ih =>
      cases j with
      | zero => simp
      | succ k =>
          have h := ih k
          simp only [List.getD, List.get?_eq_getElem?] at h
          simpa using h

/-- An assignment only writes the result fields of one declaration, so
resetting the option array afterwards gives the same array as resetting
it before. -/
theorem cmd_assign_reset (opts : List CMD_Opt) (j : Nat) (val : Option String) :
    ((cmd_assign opts j val).2).map cmd_reset_opt = opts.map cmd_reset_opt := by
  have key : ∀ o2 : CMD_Opt, cmd_reset_opt o2 = cmd_reset_opt (opts.getD j default) →
      (opts.set j o2).map cmd_reset_opt = opts.map cmd_reset_opt := by
    intro o2 h2
    rw [List.map_set, h2, ← cmd_getD_map_reset, cmd_set_getD_self]
  rw [cmd_assign.eq_def]
  cases htype : (opts.getD j default).type
  · simp only [htype]
    exact key _ (by
      have h2 := htype
      simp only [List.getD, List.get?_eq_getElem?] at h2
      simp [cmd_reset_opt, h2])
  · simp only [htype]
    exact key _ (by
      have h2 := htype
      simp only [List.getD, List.get?_eq_getElem?] at h2
      simp [cmd_reset_opt, h2])
  · simp only [htype]
    cases val with
    | none =>
        exact key _ (by
          have h2 := htype
          simp only [List.getD, List.get?_eq_getElem?] at h2
          simp [cmd_reset_opt, h2])
    | some v =>
        by_cases hv : cmd_is_valid_int v
        · simp only [hv, if_true]
          exact key _ (by
            have h2 := htype
            simp only [List.getD, List.get?_eq_getElem?] at h2
            simp [cmd_reset_opt, h2])
        · simp only [hv, Bool.false_eq_true, if_false]
          exact key _ (by
            have h2 := htype
            simp only [List.getD, List.get?_eq_getElem?] at h2
            simp [cmd_reset_opt, h2])

/-- The loop only writes result fields: resetting the option array it
returns recovers the reset of the option array it was given. -/
theorem cmd_parse_loop_reset (opts : List CMD_Opt) (out : CMD_ParseOut)
    (toks : List String) :
    ((cmd_parse_loop opts out toks).2.1).map cmd_reset_opt =
      opts.map cmd_reset_opt := by
  induction opts, out, toks using cmd_parse_loop.induct with
  | case1 opts out => simp [cmd_parse_loop]
  | case2 opts out arg rest res toks hstep =>
      rw [cmd_parse_loop]
      simp only [hstep]
  | case3 opts out arg j val opts2 hassign next tail hstep ih =>
      rw [cmd_parse_loop]
      have ha := cmd_assign_reset opts j val
      rw [hassign] at ha
      simp only [hstep, hassign]
      simpa using ih.trans (by simpa using ha)
  | case4 opts out arg j val opts2 hassign hstep ih =>
      rw [cmd_parse_loop]
      have ha := cmd_assign_reset opts j val
      rw [hassign] at ha
      simp only [hstep, hassign]
      simpa using ih.trans (by simpa using ha)
  | case5 opts out arg rest j val hstep err opts2 herr hassign =>
      cases err <;> first
        | exact (herr rfl).elim
        | (rw [cmd_parse_loop]
           have ha := cmd_assign_reset opts j val
           rw [hassign] at ha
           simp only [hstep, hassign]
           simpa using ha)
  | case6 opts out arg rest j val hstep opts2 hassign ih =>
      rw [cmd_parse_loop]
      have ha := cmd_assign_reset opts j val
      rw [hassign] at ha
      simp only [hstep, hassign]
      simpa using ih.trans (by simpa using ha)
  | case7 opts out arg rest j val hstep err opts2 herr hassign =>
      cases err <;> first
        | exact (herr rfl).elim
        | (rw [cmd_parse_loop]
           have ha := cmd_assign_reset opts j val
           rw [hassign] at ha
           simp only [hstep, hassign]
           simpa using ha)
  | case8 opts out arg rest hstep hcap ih =>
      rw [cmd_parse_loop]
      simp only [hstep, if_pos hcap]
      simpa using ih
  | case9 opts out arg rest hstep hcap ih =>
      rw [cmd_parse_loop]
      simp only [hstep, if_neg hcap]
      simpa using ih

/-- Resetting an already reset option array changes nothing. -/
theorem cmd_reset_map_idem (l : List CMD_Opt) :
    (l.map cmd_reset_opt).map cmd_reset_opt = l.map cmd_reset_opt := by
  rw [List.map_map]
  exact List.map_congr_left (fun o _ => rfl)

/-- C7: no state leaks between parse calls.  Parsing token sequence T1
and then T2 on the resulting option array gives exactly the same result
(outcome, option fields, and token vector) as a single parse of T2 on
the original array: every parse call first resets all declarations'
result fields to their defaults. -/
theorem cmd_c7_no_state_leak (argv1 argv2 : List String) (opts : List CMD_Opt) :
    cmd_parse_options argv2 (cmd_parse_options argv1 opts).2.1 =
      cmd_parse_options argv2 opts := by
  simp only [cmd_parse_options]
  rw [cmd_parse_loop_reset, cmd_reset_map_idem]
